import Mathlib

/-!
Shallow embedding of `stable_baselines3/common/atari_wrappers.py`.

Each gym wrapper method is modelled as a pure Lean function over an explicit
inner-environment record `InnerEnv σ` (the wrapped environment, with state
type `σ`).  Effectful calls into the inner environment (`self.env.reset()`,
`self.env.step(a)`) are modelled by threading a `Traced σ` value that carries
the inner state together with a log of the calls made, so that claims about
"how many inner resets/steps happen" are statable.

Observations are flat pixel lists (`List Int`), rewards are `Int`, the
Python `info` dict is an opaque `Nat` token.  Python's `i == self._skip - 2`
comparisons are modelled over `Int` (Python integers), not truncated `Nat`
subtraction.
-/

/-- A call made against the inner environment: either `env.reset()` or
`env.step(a)`. -/
inductive Call where
  | reset : Call
  | step : Nat → Call
deriving DecidableEq, Repr

/-- Result of one inner `step` call: `(obs, reward, done, info)` plus the
successor state. -/
structure StepOut (α : Type) where
  obs : List Int
  reward : Int
  done : Bool
  info : Nat
  st : α
deriving Repr, DecidableEq

/-- The wrapped (inner) environment, as the Python wrappers see it:
`env.reset`, `env.step`, `env.unwrapped.ale.lives()`,
`env.unwrapped.np_random.randint(lo, hi)` (half-open range, may advance the
rng state), and `env.unwrapped.get_action_meanings()`. -/
structure InnerEnv (σ : Type) where
  reset : σ → List Int × σ
  step : σ → Nat → StepOut σ
  lives : σ → Nat
  randint : σ → Nat → Nat → Nat × σ
  actionMeanings : List String

/-- Inner state paired with the log of inner calls made so far. -/
structure Traced (σ : Type) where
  state : σ
  log : List Call
deriving Repr, DecidableEq

/-- `self.env.reset(**kwargs)`, recorded in the call log. -/
def tReset {σ : Type} (E : InnerEnv σ) (t : Traced σ) : List Int × Traced σ :=
  let r := E.reset t.state
  (r.1, ⟨r.2, t.log ++ [Call.reset]⟩)

/-- `self.env.step(a)`, recorded in the call log. -/
def tStep {σ : Type} (E : InnerEnv σ) (t : Traced σ) (a : Nat) : StepOut (Traced σ) :=
  let o := E.step t.state a
  ⟨o.obs, o.reward, o.done, o.info, ⟨o.st, t.log ++ [Call.step a]⟩⟩

/-- Number of `step` calls in a log. -/
def countSteps (l : List Call) : Nat :=
  l.countP fun c => match c with | Call.step _ => true | Call.reset => false

/-- Number of `reset` calls in a log. -/
def countResets (l : List Call) : Nat :=
  l.countP fun c => match c with | Call.step _ => false | Call.reset => true

/-! ## EpisodicLifeEnv -/

/-- The mutable attributes of `EpisodicLifeEnv`: `self.lives` and
`self.was_real_done`. -/
structure ELState where
  lives : Nat
  was_real_done : Bool
deriving DecidableEq, Repr

/-- `EpisodicLifeEnv.step`: step the inner env, record its `done` as
`was_real_done`, read the current ale lives, force `done` when
`0 < lives < self.lives`, store the new lives. -/
def episodicLifeStep {σ : Type} (E : InnerEnv σ) (st : ELState) (t : Traced σ)
    (a : Nat) : StepOut (Traced σ) × ELState :=
  let o := tStep E t a
  let was_real_done := o.done
  let lives := E.lives o.st.state
  let done := if 0 < lives ∧ lives < st.lives then true else o.done
  (⟨o.obs, o.reward, done, o.info, o.st⟩, ⟨lives, was_real_done⟩)

/-- `EpisodicLifeEnv.reset`: inner reset only when `was_real_done`, else one
no-op inner step; then refresh `self.lives` from the ale. -/
def episodicLifeReset {σ : Type} (E : InnerEnv σ) (st : ELState) (t : Traced σ) :
    List Int × ELState × Traced σ :=
  if st.was_real_done then
    let r := tReset E t
    (r.1, ⟨E.lives r.2.state, st.was_real_done⟩, r.2)
  else
    let o := tStep E t 0
    (o.obs, ⟨E.lives o.st.state, st.was_real_done⟩, o.st)

/-! ## FireResetEnv -/

/-- Construction-time precondition of `FireResetEnv.__init__`
(`assert meanings[1] == "FIRE"`, `assert len(meanings) >= 3`); `none` models
the assertion failing, i.e. no wrapper is constructed. -/
def fireResetInit (meanings : List String) : Option Unit :=
  if meanings.get? 1 = some "FIRE" ∧ 3 ≤ meanings.length then some () else none

/-- `FireResetEnv.reset`: inner reset (obs discarded), step action 1, extra
reset if that step was done (obs discarded), step action 2, extra reset if
that step was done (obs discarded); return the action-2 observation. -/
def fireReset {σ : Type} (E : InnerEnv σ) (t : Traced σ) : List Int × Traced σ :=
  let t0 := (tReset E t).2
  let o1 := tStep E t0 1
  let t1 := if o1.done then (tReset E o1.st).2 else o1.st
  let o2 := tStep E t1 2
  let t2 := if o2.done then (tReset E o2.st).2 else o2.st
  (o2.obs, t2)

/-- `FireResetEnv.step` is inherited from `gym.Wrapper`: a plain passthrough
to the inner environment. -/
def fireStep {σ : Type} (E : InnerEnv σ) (t : Traced σ) (a : Nat) :
    StepOut (Traced σ) :=
  tStep E t a

/-! ## NoopResetEnv construction -/

/-- The immutable configuration of `NoopResetEnv`. -/
structure NoopCfg where
  noop_max : Nat
  override_num_noops : Option Nat
deriving Repr

/-- Construction-time precondition of `NoopResetEnv.__init__`
(`assert meanings[0] == "NOOP"`); `none` models the assertion failing. -/
def noopResetInit (meanings : List String) (noop_max : Nat)
    (override_num_noops : Option Nat) : Option NoopCfg :=
  if meanings.get? 0 = some "NOOP" then some ⟨noop_max, override_num_noops⟩
  else none

/-! ## NoopResetEnv reset -/

/-- The `for _ in range(noops)` loop body of `NoopResetEnv.reset`: step with
the no-op action 0, and if `done`, overwrite `obs` with the observation of a
fresh inner reset. -/
def noopLoop {σ : Type} (E : InnerEnv σ) : Nat → Traced σ → List Int →
    List Int × Traced σ
  | 0, t, obs => (obs, t)
  | n + 1, t, _ =>
      let o := tStep E t 0
      if o.done then
        let r := tReset E o.st
        noopLoop E n r.2 r.1
      else
        noopLoop E n o.st o.obs

/-- The `noops` draw of `NoopResetEnv.reset`: the override when configured,
else `np_random.randint(1, noop_max + 1)` on the given (post-reset) inner
state; also returns the successor inner state (the rng may advance). -/
def noopDraw {σ : Type} (E : InnerEnv σ) (cfg : NoopCfg) (s : σ) : Nat × σ :=
  match cfg.override_num_noops with
  | some n => (n, s)
  | none => E.randint s 1 (cfg.noop_max + 1)

/-- `NoopResetEnv.reset`: inner reset (obs discarded), draw `noops`,
`assert noops > 0` (`none` models the assertion failing), initialise `obs`
to the empty `np.zeros(0)`, then run the no-op loop. -/
def noopReset {σ : Type} (E : InnerEnv σ) (cfg : NoopCfg) (t : Traced σ) :
    Option (List Int × Traced σ) :=
  let t0 := (tReset E t).2
  let d := noopDraw E cfg t0.state
  if d.1 = 0 then none
  else some (noopLoop E d.1 ⟨d.2, t0.log⟩ [])

/-! ## MaxAndSkipEnv -/

/-- The two-slot observation buffer `self._obs_buffer` of `MaxAndSkipEnv`. -/
structure MASBuf where
  b0 : List Int
  b1 : List Int
deriving DecidableEq, Repr

/-- Element-wise maximum of two frames (`self._obs_buffer.max(axis=0)`). -/
def elemMax (x y : List Int) : List Int :=
  List.zipWith max x y

/-- The two conditional buffer writes of one iteration of
`MaxAndSkipEnv.step`: slot 0 is written when `i == skip - 2`, slot 1 when
`i == skip - 1`, both compared over `Int` (Python integers; for `skip = 1`
the index `skip - 2 = -1` matches no iteration). -/
def masWrite (skip i : Nat) (obs : List Int) (buf : MASBuf) : MASBuf :=
  let buf1 := if (i : Int) = (skip : Int) - 2 then MASBuf.mk obs buf.b1 else buf
  if (i : Int) = (skip : Int) - 1 then MASBuf.mk buf1.b0 obs else buf1

/-- The `for i in range(self._skip)` loop of `MaxAndSkipEnv.step`.
`i` is the current iteration index, `fuel` the remaining iterations
(initially `skip`), `total` the reward accumulated so far, and `dn`/`inf`
the `done`/`info` of the previous iteration (the initial `dn` models
Python's `done = None`; it is never returned when `skip ≥ 1`). -/
def masLoop {σ : Type} (E : InnerEnv σ) (skip a : Nat) :
    Nat → Nat → Traced σ → MASBuf → Int → Bool → Nat →
    Bool × Nat × Int × MASBuf × Traced σ
  | _, 0, t, buf, total, dn, inf => (dn, inf, total, buf, t)
  | i, fuel + 1, t, buf, total, _, _ =>
      let o := tStep E t a
      let buf := masWrite skip i o.obs buf
      let total := total + o.reward
      if o.done then (o.done, o.info, total, buf, o.st)
      else masLoop E skip a (i + 1) fuel o.st buf total o.done o.info

/-- `MaxAndSkipEnv.step`: run the skip loop from iteration 0, then return
the element-wise max of the two buffer slots, the accumulated reward, and
the last `done`/`info`, along with the updated buffer and inner state. -/
def masStep {σ : Type} (E : InnerEnv σ) (skip : Nat) (buf : MASBuf)
    (t : Traced σ) (a : Nat) : List Int × Int × Bool × Nat × MASBuf × Traced σ :=
  let r := masLoop E skip a 0 skip t buf 0 false 0
  (elemMax r.2.2.2.1.b0 r.2.2.2.1.b1, r.2.2.1, r.1, r.2.1, r.2.2.2.1, r.2.2.2.2)

/-- `MaxAndSkipEnv.reset`: a direct delegation to the inner reset; the
buffer is not touched. -/
def masReset {σ : Type} (E : InnerEnv σ) (buf : MASBuf) (t : Traced σ) :
    List Int × MASBuf × Traced σ :=
  let r := tReset E t
  (r.1, buf, r.2)

/-! ## Trajectories (specification side)

To state properties of the loops we need the pure trajectory obtained by
repeating one action from a given inner state: `trajT E a t k` is the traced
state after `k` repeated steps, and `trajOut E a t k` the output of the
`(k+1)`-th step. -/

/-- Traced state after `k` repetitions of action `a`. -/
def trajT {σ : Type} (E : InnerEnv σ) (a : Nat) (t : Traced σ) : Nat → Traced σ
  | 0 => t
  | k + 1 => (tStep E (trajT E a t k) a).st

/-- Output of the `(k+1)`-th repetition of action `a` (0-indexed step `k`). -/
def trajOut {σ : Type} (E : InnerEnv σ) (a : Nat) (t : Traced σ) (k : Nat) :
    StepOut (Traced σ) :=
  tStep E (trajT E a t k) a

/-- Exact sum of the rewards of the first `n` repetitions of action `a`. -/
def rewardSum {σ : Type} (E : InnerEnv σ) (a : Nat) (t : Traced σ) (n : Nat) : Int :=
  ((List.range n).map fun k => (trajOut E a t k).reward).sum

/-- Number of no-op steps among the first `n` iterations of the
`NoopResetEnv.reset` loop that come back with `done = true` (each such
iteration makes the wrapper reset the inner environment again). -/
def noopDones {σ : Type} (E : InnerEnv σ) : Nat → Traced σ → Nat
  | 0, _ => 0
  | n + 1, t =>
      let o := tStep E t 0
      if o.done then 1 + noopDones E n (tReset E o.st).2
      else noopDones E n o.st

/-! ## AtariWrapper assembly -/

/-- The six wrapper layers the builder can install. -/
inductive Layer where
  | noopReset : Layer
  | maxAndSkip : Layer
  | episodicLife : Layer
  | fireReset : Layer
  | warpFrame : Layer
  | clipReward : Layer
deriving DecidableEq, Repr

/-- `AtariWrapper.__init__`, abstracted to the sequence of layers it wraps
around the raw environment, listed innermost (applied first) to outermost.
`meanings` is the raw environment's action-meaning list (the code reads it
through `env.unwrapped`, which reaches the raw environment). -/
def atariWrapperLayers (meanings : List String)
    (terminal_on_life_loss clip_reward : Bool) : List Layer :=
  let layers := [Layer.noopReset]
  let layers := layers ++ [Layer.maxAndSkip]
  let layers := if terminal_on_life_loss then layers ++ [Layer.episodicLife] else layers
  let layers := if meanings.contains "FIRE" then layers ++ [Layer.fireReset] else layers
  let layers := layers ++ [Layer.warpFrame]
  if clip_reward then layers ++ [Layer.clipReward] else layers

/-! ## Concrete environments for witnesses -/

/-- A deterministic inner environment over a step counter: never done,
observation `[s]`, reward `s`, rng returns the lower bound. -/
def envCount : InnerEnv Nat where
  reset := fun _ => ([100], 0)
  step := fun s _ => ⟨[s], s, false, 0, s + 1⟩
  lives := fun _ => 3
  randint := fun s lo _ => (lo, s)
  actionMeanings := ["NOOP", "FIRE", "UP"]

/-- A deterministic inner environment over a step counter that reports
`done = true` exactly on the step taken from counter value `d`; reset
observation `[9]`, step observation `[s + 1]`, reward `s`. -/
def envDoneAt (d : Nat) : InnerEnv Nat where
  reset := fun _ => ([9], 0)
  step := fun s _ => ⟨[s + 1], s, decide (s = d), 0, s + 1⟩
  lives := fun _ => 3
  randint := fun s lo _ => (lo, s)
  actionMeanings := ["NOOP", "FIRE", "UP"]

/-! ## Theorems -/

/-- Claim C1: `EpisodicLifeEnv.step` records the inner `done` as
`was_real_done`, reads the current life count from the post-step state,
returns `done = true` exactly when the inner `done` was true or
`0 < current_lives < stored_lives`, updates the stored lives to the current
lives unconditionally, and passes observation, reward and info through
unchanged. -/
theorem episodicLife_step_spec {σ : Type} (E : InnerEnv σ) (st : ELState)
    (t : Traced σ) (a : Nat) :
    (episodicLifeStep E st t a).2.was_real_done = (tStep E t a).done ∧
    (episodicLifeStep E st t a).2.lives = E.lives (tStep E t a).st.state ∧
    (episodicLifeStep E st t a).1.done =
      ((tStep E t a).done ||
        (decide (0 < E.lives (tStep E t a).st.state) &&
          decide (E.lives (tStep E t a).st.state < st.lives))) ∧
    (episodicLifeStep E st t a).1.obs = (tStep E t a).obs ∧
    (episodicLifeStep E st t a).1.reward = (tStep E t a).reward ∧
    (episodicLifeStep E st t a).1.info = (tStep E t a).info ∧
    (episodicLifeStep E st t a).1.st = (tStep E t a).st := by
  refine ⟨rfl, rfl, ?_, rfl, rfl, rfl, rfl⟩
  by_cases h : 0 < E.lives (tStep E t a).st.state ∧
      E.lives (tStep E t a).st.state < st.lives
  · simp [episodicLifeStep, h, h.1, h.2]
  · rw [not_and_or] at h
    rcases h with h | h <;> simp [episodicLifeStep, h]

/-- Claim C2: `EpisodicLifeEnv.reset` issues exactly one inner reset when the
last episode end was a genuine game over (`was_real_done = true`), and
otherwise issues no inner reset but exactly one no-op inner step (action 0),
returning that call's observation; in both cases the stored lives counter is
refreshed from the resulting inner state and `was_real_done` is unchanged. -/
theorem episodicLife_reset_spec {σ : Type} (E : InnerEnv σ) (st : ELState)
    (t : Traced σ) :
    (episodicLifeReset E st t).2.2.log =
      t.log ++ (if st.was_real_done then [Call.reset] else [Call.step 0]) ∧
    (episodicLifeReset E st t).1 =
      (if st.was_real_done then (tReset E t).1 else (tStep E t 0).obs) ∧
    (episodicLifeReset E st t).2.1.lives =
      E.lives (episodicLifeReset E st t).2.2.state ∧
    (episodicLifeReset E st t).2.1.was_real_done = st.was_real_done := by
  cases h : st.was_real_done <;>
    simp [episodicLifeReset, h, tReset, tStep]

/-- Claim C7: `FireResetEnv.reset` calls inner reset (observation discarded),
then steps with action 1 and then action 2 in that order; exactly one extra
inner reset is inserted between them when the action-1 step ended the
episode; the returned observation is the action-2 step's observation
regardless of that step's own done flag; and `step` passes through to the
inner environment unchanged. -/
theorem fireReset_spec {σ : Type} (E : InnerEnv σ) (t : Traced σ) :
    (fireReset E t).1 =
      (tStep E (if (tStep E (tReset E t).2 1).done
          then (tReset E (tStep E (tReset E t).2 1).st).2
          else (tStep E (tReset E t).2 1).st) 2).obs ∧
    (fireReset E t).2.log =
      t.log ++ [Call.reset, Call.step 1] ++
        (if (tStep E (tReset E t).2 1).done then [Call.reset] else []) ++
        [Call.step 2] ++
        (if (tStep E (if (tStep E (tReset E t).2 1).done
              then (tReset E (tStep E (tReset E t).2 1).st).2
              else (tStep E (tReset E t).2 1).st) 2).done
          then [Call.reset] else []) ∧
    (∀ a, fireStep E t a = tStep E t a) := by
  refine ⟨?_, ?_, fun a => rfl⟩ <;>
    cases h1 : (tStep E (tReset E t).2 1).done <;>
    simp only [fireReset, h1, if_true, if_false, Bool.false_eq_true] <;>
    cases h2 : (tStep E (if (tStep E (tReset E t).2 1).done
        then (tReset E (tStep E (tReset E t).2 1).st).2
        else (tStep E (tReset E t).2 1).st) 2).done <;>
    simp_all [fireReset, tReset, tStep]

/-- The action-1 step taken inside `FireResetEnv.reset`. -/
def fireO1 {σ : Type} (E : InnerEnv σ) (t : Traced σ) : StepOut (Traced σ) :=
  tStep E (tReset E t).2 1

/-- The inner state from which `FireResetEnv.reset` takes the action-2 step
(after the conditional extra reset). -/
def fireT1 {σ : Type} (E : InnerEnv σ) (t : Traced σ) : Traced σ :=
  if (fireO1 E t).done then (tReset E (fireO1 E t).st).2 else (fireO1 E t).st

/-- The action-2 step taken inside `FireResetEnv.reset`. -/
def fireO2 {σ : Type} (E : InnerEnv σ) (t : Traced σ) : StepOut (Traced σ) :=
  tStep E (fireT1 E t) 2

/-- Claim C10: when the action-2 step of `FireResetEnv.reset` itself ends the
episode, one additional inner reset is issued (observation discarded) before
returning the action-2 observation; the total number of inner resets is
1 plus one per fire-up step that ended the episode, hence 3 when both did
(witnessed concretely by `envDoneAt 0`). -/
theorem fireReset_action2_done_extra_reset {σ : Type} (E : InnerEnv σ)
    (t : Traced σ) :
    (fireReset E t).1 = (fireO2 E t).obs ∧
    (fireReset E t).2.log =
      (fireO2 E t).st.log ++ (if (fireO2 E t).done then [Call.reset] else []) ∧
    countResets (fireReset E t).2.log =
      countResets t.log + 1 + (if (fireO1 E t).done then 1 else 0) +
        (if (fireO2 E t).done then 1 else 0) ∧
    countResets (fireReset (envDoneAt 0) ⟨5, []⟩).2.log = 3 := by
  refine ⟨?_, ?_, ?_, by decide⟩ <;>
    cases h1 : (fireO1 E t).done <;>
    cases h2 : (fireO2 E t).done <;>
    simp_all [fireReset, fireO2, fireT1, fireO1, tReset, tStep, countResets,
      List.countP_append, List.countP_cons]

/-- Claim C8: `NoopResetEnv` construction succeeds exactly when the inner
action meaning at index 0 is NOOP, and `FireResetEnv` construction succeeds
exactly when the action meaning at index 1 is FIRE and there are at least 3
actions; a failing assertion yields no wrapper object at all (`none`). -/
theorem construction_failfast (meanings : List String) (m : Nat)
    (o : Option Nat) :
    (noopResetInit meanings m o).isSome =
      decide (meanings.get? 0 = some "NOOP") ∧
    (fireResetInit meanings).isSome =
      (decide (meanings.get? 1 = some "FIRE") && decide (3 ≤ meanings.length)) := by
  constructor
  · by_cases h : meanings.get? 0 = some "NOOP" <;> simp_all [noopResetInit]
  · by_cases h1 : meanings.get? 1 = some "FIRE" <;>
      by_cases h2 : 3 ≤ meanings.length <;> simp_all [fireResetInit] <;>
      rw [if_neg (by omega), decide_eq_false (by omega)] <;> rfl

/-- Claim C9: the builder wraps the raw environment, innermost first, in the
fixed order NoopReset, MaxAndSkip, EpisodicLife (iff `terminal_on_life_loss`),
FireReset (iff the raw action meanings contain FIRE), WarpFrame, ClipReward
(iff `clip_reward`), and no other layers. -/
theorem atariWrapper_layers_spec (meanings : List String) (toll clip : Bool) :
    atariWrapperLayers meanings toll clip =
      [Layer.noopReset, Layer.maxAndSkip] ++
        (if toll then [Layer.episodicLife] else []) ++
        (if meanings.contains "FIRE" then [Layer.fireReset] else []) ++
        [Layer.warpFrame] ++ (if clip then [Layer.clipReward] else []) ∧
    decide (Layer.episodicLife ∈ atariWrapperLayers meanings toll clip) = toll ∧
    decide (Layer.fireReset ∈ atariWrapperLayers meanings toll clip) =
      meanings.contains "FIRE" ∧
    decide (Layer.clipReward ∈ atariWrapperLayers meanings toll clip) = clip ∧
    Layer.noopReset ∈ atariWrapperLayers meanings toll clip ∧
    Layer.maxAndSkip ∈ atariWrapperLayers meanings toll clip ∧
    Layer.warpFrame ∈ atariWrapperLayers meanings toll clip := by
  cases toll <;> cases clip <;> by_cases hF : "FIRE" ∈ meanings <;>
    simp_all [atariWrapperLayers]

/-! ### Helper lemmas about call counting and trajectories -/

theorem countSteps_append (l1 l2 : List Call) :
    countSteps (l1 ++ l2) = countSteps l1 + countSteps l2 := by
  simp [countSteps, List.countP_append]

theorem countResets_append (l1 l2 : List Call) :
    countResets (l1 ++ l2) = countResets l1 + countResets l2 := by
  simp [countResets, List.countP_append]

theorem trajT_shift {σ : Type} (E : InnerEnv σ) (a : Nat) (t : Traced σ) :
    ∀ k, trajT E a (tStep E t a).st k = trajT E a t (k + 1) := by
  intro k
  induction k with
  | zero => rfl
  | succ k ih => simp only [trajT, ih]

theorem trajOut_shift {σ : Type} (E : InnerEnv σ) (a : Nat) (t : Traced σ)
    (k : Nat) : trajOut E a (tStep E t a).st k = trajOut E a t (k + 1) := by
  simp only [trajOut, trajT_shift]

theorem trajT_log {σ : Type} (E : InnerEnv σ) (a : Nat) :
    ∀ (k : Nat) (t : Traced σ),
      (trajT E a t k).log = t.log ++ List.replicate k (Call.step a) := by
  intro k
  induction k with
  | zero => intro t; simp [trajT]
  | succ k ih =>
      intro t
      simp only [trajT, tStep, ih, List.replicate_succ']
      simp [List.append_assoc]

theorem rewardSum_succ_shift {σ : Type} (E : InnerEnv σ) (a : Nat)
    (t : Traced σ) (n : Nat) :
    rewardSum E a t (n + 1) =
      (tStep E t a).reward + rewardSum E a (tStep E t a).st n := by
  simp only [rewardSum, List.range_succ_eq_map, List.map_cons, List.map_map,
    List.sum_cons]
  have h0 : (trajOut E a t 0).reward = (tStep E t a).reward := rfl
  rw [h0]
  congr 1
  apply congrArg
  apply List.map_congr_left
  intro k _
  simp [Function.comp, trajOut_shift]

theorem noopLoop_succ_left {σ : Type} (E : InnerEnv σ) (n : Nat)
    (t : Traced σ) (obs : List Int) :
    noopLoop E (n + 1) t obs =
      (if (tStep E t 0).done
       then noopLoop E n (tReset E (tStep E t 0).st).2 (tReset E (tStep E t 0).st).1
       else noopLoop E n (tStep E t 0).st (tStep E t 0).obs) := rfl

theorem noopLoop_countSteps {σ : Type} (E : InnerEnv σ) :
    ∀ (n : Nat) (t : Traced σ) (obs : List Int),
      countSteps (noopLoop E n t obs).2.log = countSteps t.log + n := by
  intro n
  induction n with
  | zero => intro t obs; simp [noopLoop]
  | succ n ih =>
      intro t obs
      by_cases h : (tStep E t 0).done
      · rw [noopLoop_succ_left, if_pos h, ih]
        simp [tStep, tReset, countSteps_append, countSteps, List.countP_cons]
        omega
      · rw [noopLoop_succ_left, if_neg h, ih]
        simp [tStep, countSteps_append, countSteps, List.countP_cons]
        omega

theorem noopLoop_countResets {σ : Type} (E : InnerEnv σ) :
    ∀ (n : Nat) (t : Traced σ) (obs : List Int),
      countResets (noopLoop E n t obs).2.log =
        countResets t.log + noopDones E n t := by
  intro n
  induction n with
  | zero => intro t obs; simp [noopLoop, noopDones]
  | succ n ih =>
      intro t obs
      by_cases h : (tStep E t 0).done
      · rw [noopLoop_succ_left, if_pos h, ih]
        simp only [noopDones, h, if_true]
        simp [tStep, tReset, countResets_append, countResets, List.countP_cons]
        omega
      · rw [noopLoop_succ_left, if_neg h, ih]
        simp only [noopDones, h, Bool.false_eq_true, if_false]
        simp [tStep, countResets_append, countResets, List.countP_cons]

theorem noopLoop_succ_right {σ : Type} (E : InnerEnv σ) :
    ∀ (n : Nat) (t : Traced σ) (obs : List Int),
      noopLoop E (n + 1) t obs =
        (if (tStep E (noopLoop E n t obs).2 0).done
         then ((tReset E (tStep E (noopLoop E n t obs).2 0).st).1,
               (tReset E (tStep E (noopLoop E n t obs).2 0).st).2)
         else ((tStep E (noopLoop E n t obs).2 0).obs,
               (tStep E (noopLoop E n t obs).2 0).st)) := by
  intro n
  induction n with
  | zero =>
      intro t obs
      by_cases h : (tStep E t 0).done <;> simp [noopLoop, h]
  | succ n ih =>
      intro t obs
      by_cases h : (tStep E t 0).done
      · rw [noopLoop_succ_left E (n + 1) t obs, if_pos h,
            noopLoop_succ_left E n t obs, if_pos h]
        exact ih _ _
      · rw [noopLoop_succ_left E (n + 1) t obs, if_neg h,
            noopLoop_succ_left E n t obs, if_neg h]
        exact ih _ _

/-- Claim C5 counterexample: on `envDoneAt 0` with one forced no-op, the
single no-op step ends the episode, and `NoopResetEnv.reset` returns the
observation `[9]` produced by the extra inner reset call, not the
observation `[1]` produced by the last no-op step taken. -/
theorem noopReset_obs_counterexample :
    noopReset (envDoneAt 0) ⟨30, some 1⟩ ⟨55, []⟩ =
      some ([9], ⟨0, [Call.reset, Call.step 0, Call.reset]⟩) ∧
    (tStep (envDoneAt 0) ⟨0, [Call.reset]⟩ 0).obs = [1] ∧
    ([9] : List Int) ≠ [1] := by
  refine ⟨rfl, rfl, by decide⟩

/-- Claim C5 amended: the observation returned by a successful
`NoopResetEnv.reset` results from the last inner call the loop made: it is
the last no-op step's observation when that step did not end the episode,
and the observation of the inner reset issued right after it when it did. -/
theorem noopReset_obs_amended {σ : Type} (E : InnerEnv σ) (cfg : NoopCfg)
    (t : Traced σ) (obs : List Int) (t' : Traced σ)
    (h : noopReset E cfg t = some (obs, t')) :
    obs = (let d := noopDraw E cfg (tReset E t).2.state
           let q := (noopLoop E (d.1 - 1) ⟨d.2, (tReset E t).2.log⟩ []).2
           if (tStep E q 0).done then (tReset E (tStep E q 0).st).1
           else (tStep E q 0).obs) := by
  unfold noopReset at h
  by_cases h0 : (noopDraw E cfg (tReset E t).2.state).1 = 0
  · simp only [h0, if_pos rfl] at h
    exact absurd h (by simp)
  · rw [if_neg h0] at h
    obtain ⟨m, hm⟩ : ∃ m, (noopDraw E cfg (tReset E t).2.state).1 = m + 1 :=
      ⟨(noopDraw E cfg (tReset E t).2.state).1 - 1,
        (Nat.succ_pred_eq_of_pos (Nat.pos_of_ne_zero h0)).symm⟩
    have hobs : obs =
        (noopLoop E (noopDraw E cfg (tReset E t).2.state).1
          ⟨(noopDraw E cfg (tReset E t).2.state).2, (tReset E t).2.log⟩ []).1 := by
      have h2 := congrArg Prod.fst (Option.some.inj h)
      exact h2.symm
    rw [hobs, hm, noopLoop_succ_right]
    simp only [hm, Nat.add_sub_cancel]
    by_cases hd : (tStep E (noopLoop E m
        ⟨(noopDraw E cfg (tReset E t).2.state).2, (tReset E t).2.log⟩ []).2 0).done <;>
      simp [hd]

/-- Claim C5 amended, witness at `envDoneAt 0` with one forced no-op. -/
theorem noopReset_obs_amended_witness :
    ([9] : List Int) =
      (let d := noopDraw (envDoneAt 0) ⟨30, some 1⟩
          (tReset (envDoneAt 0) ⟨55, []⟩).2.state
       let q := (noopLoop (envDoneAt 0) (d.1 - 1)
          ⟨d.2, (tReset (envDoneAt 0) ⟨55, []⟩).2.log⟩ []).2
       if (tStep (envDoneAt 0) q 0).done
       then (tReset (envDoneAt 0) (tStep (envDoneAt 0) q 0).st).1
       else (tStep (envDoneAt 0) q 0).obs) :=
  noopReset_obs_amended (envDoneAt 0) ⟨30, some 1⟩ ⟨55, []⟩ [9]
    ⟨0, [Call.reset, Call.step 0, Call.reset]⟩ rfl

/-- Claim C6: on `NoopResetEnv.reset`, without an override the drawn number
of no-ops lies in `[1, noop_max]` (given the rng contract of
`randint(1, noop_max + 1)`); with `override_num_noops = m` it is exactly
`m`; and whenever the draw is positive, reset succeeds having taken exactly
that many no-op steps against the inner environment — a no-op step that
ends the episode triggers one extra inner reset and the loop still consumes
the full remaining count rather than aborting early (inner resets total
`1 + noopDones`). -/
theorem noopReset_count_spec {σ : Type} (E : InnerEnv σ) (cfg : NoopCfg)
    (t : Traced σ)
    (hr : 1 ≤ (E.randint (tReset E t).2.state 1 (cfg.noop_max + 1)).1 ∧
          (E.randint (tReset E t).2.state 1 (cfg.noop_max + 1)).1 ≤ cfg.noop_max) :
    (cfg.override_num_noops = none →
      1 ≤ (noopDraw E cfg (tReset E t).2.state).1 ∧
      (noopDraw E cfg (tReset E t).2.state).1 ≤ cfg.noop_max) ∧
    (∀ m, cfg.override_num_noops = some m →
      (noopDraw E cfg (tReset E t).2.state).1 = m) ∧
    (1 ≤ (noopDraw E cfg (tReset E t).2.state).1 →
      ∃ obs t', noopReset E cfg t = some (obs, t') ∧
        countSteps t'.log =
          countSteps t.log + (noopDraw E cfg (tReset E t).2.state).1 ∧
        countResets t'.log = countResets t.log + 1 +
          noopDones E (noopDraw E cfg (tReset E t).2.state).1
            ⟨(noopDraw E cfg (tReset E t).2.state).2, (tReset E t).2.log⟩) := by
  refine ⟨?_, ?_, ?_⟩
  · intro hov
    simpa [noopDraw, hov] using hr
  · intro m hov
    simp [noopDraw, hov]
  · intro hpos
    refine ⟨(noopLoop E (noopDraw E cfg (tReset E t).2.state).1
        ⟨(noopDraw E cfg (tReset E t).2.state).2, (tReset E t).2.log⟩ []).1,
      (noopLoop E (noopDraw E cfg (tReset E t).2.state).1
        ⟨(noopDraw E cfg (tReset E t).2.state).2, (tReset E t).2.log⟩ []).2,
      ?_, ?_, ?_⟩
    · unfold noopReset
      rw [if_neg (by omega)]
    · rw [noopLoop_countSteps]
      simp [tReset, countSteps_append, countSteps, List.countP_cons]
    · rw [noopLoop_countResets]
      simp [tReset, countResets_append, countResets, List.countP_cons]

/-- Claim C6, witness at `envCount` with `noop_max = 30` and no override. -/
theorem noopReset_count_spec_witness :
    ((⟨30, none⟩ : NoopCfg).override_num_noops = none →
      1 ≤ (noopDraw envCount ⟨30, none⟩ (tReset envCount ⟨55, []⟩).2.state).1 ∧
      (noopDraw envCount ⟨30, none⟩ (tReset envCount ⟨55, []⟩).2.state).1 ≤ 30) ∧
    (∀ m, (⟨30, none⟩ : NoopCfg).override_num_noops = some m →
      (noopDraw envCount ⟨30, none⟩ (tReset envCount ⟨55, []⟩).2.state).1 = m) ∧
    (1 ≤ (noopDraw envCount ⟨30, none⟩ (tReset envCount ⟨55, []⟩).2.state).1 →
      ∃ obs t', noopReset envCount ⟨30, none⟩ ⟨55, []⟩ = some (obs, t') ∧
        countSteps t'.log = countSteps ([] : List Call) +
          (noopDraw envCount ⟨30, none⟩ (tReset envCount ⟨55, []⟩).2.state).1 ∧
        countResets t'.log = countResets ([] : List Call) + 1 +
          noopDones envCount
            (noopDraw envCount ⟨30, none⟩ (tReset envCount ⟨55, []⟩).2.state).1
            ⟨(noopDraw envCount ⟨30, none⟩ (tReset envCount ⟨55, []⟩).2.state).2,
             (tReset envCount ⟨55, []⟩).2.log⟩) :=
  noopReset_count_spec envCount ⟨30, none⟩ ⟨55, []⟩ (by decide)

theorem masWrite_m1 (skip i : Nat) (obs : List Int) (buf : MASBuf)
    (h : (i : Int) = (skip : Int) - 1) :
    masWrite skip i obs buf = MASBuf.mk buf.b0 obs := by
  have h2 : ¬ (i : Int) = (skip : Int) - 2 := by omega
  simp only [masWrite]
  rw [if_pos h, if_neg h2]

theorem masWrite_m2 (skip i : Nat) (obs : List Int) (buf : MASBuf)
    (h : (i : Int) = (skip : Int) - 2) :
    masWrite skip i obs buf = MASBuf.mk obs buf.b1 := by
  have h1 : ¬ (i : Int) = (skip : Int) - 1 := by omega
  simp only [masWrite]
  rw [if_neg h1, if_pos h]

theorem masWrite_out (skip i : Nat) (obs : List Int) (buf : MASBuf)
    (h : (i : Int) < (skip : Int) - 2) :
    masWrite skip i obs buf = buf := by
  have h1 : ¬ (i : Int) = (skip : Int) - 1 := by omega
  have h2 : ¬ (i : Int) = (skip : Int) - 2 := by omega
  simp only [masWrite]
  rw [if_neg h1, if_neg h2]

theorem masLoop_succ {σ : Type} (E : InnerEnv σ) (skip a i fuel : Nat)
    (t : Traced σ) (buf : MASBuf) (total : Int) (dn : Bool) (inf : Nat) :
    masLoop E skip a i (fuel + 1) t buf total dn inf =
      (if (tStep E t a).done
       then ((tStep E t a).done, (tStep E t a).info, total + (tStep E t a).reward,
             masWrite skip i (tStep E t a).obs buf, (tStep E t a).st)
       else masLoop E skip a (i + 1) fuel (tStep E t a).st
              (masWrite skip i (tStep E t a).obs buf)
              (total + (tStep E t a).reward)
              (tStep E t a).done (tStep E t a).info) := rfl

theorem rewardSum_zero {σ : Type} (E : InnerEnv σ) (a : Nat) (t : Traced σ) :
    rewardSum E a t 0 = 0 := by
  simp [rewardSum]

theorem masLoop_run {σ : Type} (E : InnerEnv σ) (a skip : Nat) :
    ∀ (fuel i : Nat) (t : Traced σ) (buf : MASBuf) (total : Int) (dn : Bool)
      (inf : Nat),
      i + fuel = skip → 1 ≤ fuel →
      (∀ k, k + 1 < fuel → (trajOut E a t k).done = false) →
      masLoop E skip a i fuel t buf total dn inf =
        ((trajOut E a t (fuel - 1)).done, (trajOut E a t (fuel - 1)).info,
         total + rewardSum E a t fuel,
         MASBuf.mk
           (if 2 ≤ fuel then (trajOut E a t (fuel - 2)).obs else buf.b0)
           ((trajOut E a t (fuel - 1)).obs),
         (trajOut E a t (fuel - 1)).st) := by
  intro fuel
  induction fuel with
  | zero =>
      intro i t buf total dn inf hif h1 hnd
      omega
  | succ f ih =>
      intro i t buf total dn inf hif h1 hnd
      rw [masLoop_succ]
      have ht0 : trajOut E a t 0 = tStep E t a := rfl
      cases f with
      | zero =>
          rw [masWrite_m1 skip i (tStep E t a).obs buf (by omega)]
          have hr1 : rewardSum E a t 1 = (tStep E t a).reward := by
            simp [rewardSum, List.range_succ, ht0]
          by_cases hd : (tStep E t a).done <;>
            simp [hd, masLoop, ht0, hr1]
      | succ g =>
          have hd0 : (tStep E t a).done = false := hnd 0 (by omega)
          rw [if_neg (by simp [hd0])]
          rw [ih (i + 1) (tStep E t a).st (masWrite skip i (tStep E t a).obs buf)
            (total + (tStep E t a).reward) (tStep E t a).done (tStep E t a).info
            (by omega) (by omega)
            (fun k hk => by
              rw [trajOut_shift]
              exact hnd (k + 1) (by omega))]
          have hsh : ∀ m : Nat,
              trajOut E a (tStep E t a).st m = trajOut E a t (m + 1) :=
            trajOut_shift E a t
          have hrs : rewardSum E a t (g + 1 + 1) =
              (tStep E t a).reward + rewardSum E a (tStep E t a).st (g + 1) :=
            rewardSum_succ_shift E a t (g + 1)
          cases g with
          | zero =>
              rw [masWrite_m2 skip i (tStep E t a).obs buf (by omega)]
              simp [hsh, ht0, hrs, add_assoc]
          | succ g2 =>
              have e1 : g2 + 1 + 1 - 2 + 1 = g2 + 1 := by omega
              have e2 : g2 + 1 + 1 + 1 - 2 = g2 + 1 := by omega
              have c1 : (2 ≤ g2 + 1 + 1) = True := by simp
              have c2 : (2 ≤ g2 + 1 + 1 + 1) = True := by simp
              simp only [hsh, hrs, e1, e2, c1, c2, if_true]
              simp [add_assoc]

theorem masLoop_early {σ : Type} (E : InnerEnv σ) (a skip : Nat) :
    ∀ (j fuel i : Nat) (t : Traced σ) (buf : MASBuf) (total : Int) (dn : Bool)
      (inf : Nat),
      j + 1 ≤ fuel → i + fuel = skip →
      ((i : Int) + (j : Int) < (skip : Int) - 2) →
      (∀ k, k < j → (trajOut E a t k).done = false) →
      (trajOut E a t j).done = true →
      masLoop E skip a i fuel t buf total dn inf =
        (true, (trajOut E a t j).info, total + rewardSum E a t (j + 1), buf,
         (trajOut E a t j).st) := by
  intro j
  induction j with
  | zero =>
      intro fuel i t buf total dn inf hjf hif hj hnd hdj
      obtain ⟨f, rfl⟩ : ∃ f, fuel = f + 1 := ⟨fuel - 1, by omega⟩
      rw [masLoop_succ]
      rw [masWrite_out skip i (tStep E t a).obs buf (by omega)]
      have ht0 : trajOut E a t 0 = tStep E t a := rfl
      have hd : (tStep E t a).done = true := by rw [← ht0]; exact hdj
      rw [if_pos hd]
      have hr1 : rewardSum E a t 1 = (tStep E t a).reward := by
        simp [rewardSum, List.range_succ, ht0]
      simp [ht0, hr1, hd]
  | succ j ih =>
      intro fuel i t buf total dn inf hjf hif hj hnd hdj
      obtain ⟨f, rfl⟩ : ∃ f, fuel = f + 1 := ⟨fuel - 1, by omega⟩
      rw [masLoop_succ]
      have hd0 : (tStep E t a).done = false := hnd 0 (by omega)
      rw [if_neg (by simp [hd0])]
      rw [masWrite_out skip i (tStep E t a).obs buf (by omega)]
      rw [ih f (i + 1) (tStep E t a).st buf (total + (tStep E t a).reward)
        (tStep E t a).done (tStep E t a).info (by omega) (by omega)
        (by push_cast; omega)
        (fun k hk => by
          rw [trajOut_shift]
          exact hnd (k + 1) (by omega))
        (by rw [trajOut_shift]; exact hdj)]
      have hsh : ∀ m : Nat,
          trajOut E a (tStep E t a).st m = trajOut E a t (m + 1) :=
        trajOut_shift E a t
      have hrs : rewardSum E a t (j + 1 + 1) =
          (tStep E t a).reward + rewardSum E a (tStep E t a).st (j + 1) :=
        rewardSum_succ_shift E a t (j + 1)
      simp only [hsh, hrs]
      simp [add_assoc]

/-- Claim C3: when none of the first `skip - 1` repeated inner steps reports
done, `MaxAndSkipEnv.step` takes exactly `skip` inner steps with the given
action (the final inner log extends the initial one by `skip` step calls),
returns the exact sum of the `skip` rewards, the element-wise maximum of the
frames observed at iteration indices `skip - 2` and `skip - 1`, and the last
`done` and `info`; `reset` delegates directly to the inner environment and
leaves the buffer untouched. -/
theorem masStep_full_window_spec {σ : Type} (E : InnerEnv σ) (a skip : Nat)
    (buf : MASBuf) (t : Traced σ) (h2 : 2 ≤ skip)
    (hnd : ∀ k, k + 1 < skip → (trajOut E a t k).done = false) :
    masStep E skip buf t a =
      (elemMax (trajOut E a t (skip - 2)).obs (trajOut E a t (skip - 1)).obs,
       rewardSum E a t skip,
       (trajOut E a t (skip - 1)).done,
       (trajOut E a t (skip - 1)).info,
       MASBuf.mk (trajOut E a t (skip - 2)).obs (trajOut E a t (skip - 1)).obs,
       (trajOut E a t (skip - 1)).st) ∧
    (trajOut E a t (skip - 1)).st.log =
      t.log ++ List.replicate skip (Call.step a) ∧
    (∀ (b : MASBuf) (u : Traced σ),
      masReset E b u = ((tReset E u).1, b, (tReset E u).2)) := by
  refine ⟨?_, ?_, fun b u => rfl⟩
  · unfold masStep
    rw [masLoop_run E a skip skip 0 t buf 0 false 0 (by omega) (by omega) hnd]
    rw [if_pos h2]
    simp
  · have hst : (trajOut E a t (skip - 1)).st = trajT E a t skip := by
      show trajT E a t (skip - 1 + 1) = trajT E a t skip
      congr 1
      omega
    rw [hst, trajT_log]

/-- Claim C3, witness on `envCount` (never done) with `skip = 4`. -/
theorem masStep_full_window_spec_witness :
    (2 ≤ 4 ∧ ∀ k : Nat, k + 1 < 4 →
      (trajOut envCount 7 ⟨0, []⟩ k).done = false) ∧
    (masStep envCount 4 ⟨[0], [0]⟩ ⟨0, []⟩ 7 =
      (elemMax (trajOut envCount 7 ⟨0, []⟩ (4 - 2)).obs
         (trajOut envCount 7 ⟨0, []⟩ (4 - 1)).obs,
       rewardSum envCount 7 ⟨0, []⟩ 4,
       (trajOut envCount 7 ⟨0, []⟩ (4 - 1)).done,
       (trajOut envCount 7 ⟨0, []⟩ (4 - 1)).info,
       MASBuf.mk (trajOut envCount 7 ⟨0, []⟩ (4 - 2)).obs
         (trajOut envCount 7 ⟨0, []⟩ (4 - 1)).obs,
       (trajOut envCount 7 ⟨0, []⟩ (4 - 1)).st) ∧
     (trajOut envCount 7 ⟨0, []⟩ (4 - 1)).st.log =
       [] ++ List.replicate 4 (Call.step 7) ∧
     (∀ (b : MASBuf) (u : Traced Nat),
       masReset envCount b u =
         ((tReset envCount u).1, b, (tReset envCount u).2))) :=
  ⟨⟨by decide, fun k _ => rfl⟩,
   masStep_full_window_spec envCount 7 4 ⟨[0], [0]⟩ ⟨0, []⟩ (by decide)
     (fun k _ => rfl)⟩

/-- Claim C4: buffer writes are keyed to the fixed iteration indices
`skip - 2` and `skip - 1` of the configured skip count, never to the
early-termination point: a slot is modified only at its keyed iteration
index, and when the first inner `done` occurs at an iteration `j` strictly
before `skip - 2`, the whole `step` call leaves the buffer exactly as it
was and returns the element-wise maximum of the leftover buffer contents. -/
theorem masStep_early_term_stale_buffer {σ : Type} (E : InnerEnv σ)
    (a skip j : Nat) (buf : MASBuf) (t : Traced σ)
    (hjs : j + 1 ≤ skip)
    (hj : (j : Int) < (skip : Int) - 2)
    (hnd : ∀ k, k < j → (trajOut E a t k).done = false)
    (hdj : (trajOut E a t j).done = true) :
    masStep E skip buf t a =
      (elemMax buf.b0 buf.b1, rewardSum E a t (j + 1), true,
       (trajOut E a t j).info, buf, (trajOut E a t j).st) ∧
    (∀ (i2 : Nat) (o : List Int) (b : MASBuf),
      ¬((i2 : Int) = (skip : Int) - 2) → ¬((i2 : Int) = (skip : Int) - 1) →
      masWrite skip i2 o b = b) := by
  constructor
  · unfold masStep
    rw [masLoop_early E a skip j skip 0 t buf 0 false 0 hjs (by omega)
      (by omega) hnd hdj]
    simp
  · intro i2 o b h1 h2
    simp only [masWrite]
    rw [if_neg h2, if_neg h1]

/-- Claim C4, witness on `envDoneAt 0` (done on the very first inner step)
with `skip = 4` and a leftover buffer. -/
theorem masStep_early_term_stale_buffer_witness :
    (0 + 1 ≤ 4 ∧ ((0 : Nat) : Int) < ((4 : Nat) : Int) - 2 ∧
      (trajOut (envDoneAt 0) 7 ⟨0, []⟩ 0).done = true) ∧
    (masStep (envDoneAt 0) 4 ⟨[5], [7]⟩ ⟨0, []⟩ 7 =
      (elemMax [5] [7], rewardSum (envDoneAt 0) 7 ⟨0, []⟩ (0 + 1), true,
       (trajOut (envDoneAt 0) 7 ⟨0, []⟩ 0).info,
       ⟨[5], [7]⟩, (trajOut (envDoneAt 0) 7 ⟨0, []⟩ 0).st) ∧
     (∀ (i2 : Nat) (o : List Int) (b : MASBuf),
       ¬((i2 : Int) = ((4 : Nat) : Int) - 2) →
       ¬((i2 : Int) = ((4 : Nat) : Int) - 1) →
       masWrite 4 i2 o b = b)) :=
  ⟨⟨by decide, by decide, rfl⟩,
   masStep_early_term_stale_buffer (envDoneAt 0) 7 4 0 ⟨[5], [7]⟩ ⟨0, []⟩
     (by decide) (by decide) (fun k hk => absurd hk (by omega)) rfl⟩
